import Mathlib

/-!
Shallow embedding of the listen-dump reading utilities of
`listenbrainz_spark/utils/__init__.py`:

* `get_listen_files_list` — the partition catalog: list the dump directory,
  keep `incremental.parquet` and the numbered `<n>.parquet` files, sort the
  numbered files by their integer ordinal in descending order, and put the
  incremental file first when present.
* `get_listens_from_new_dump` — the bounded range scan: walk the catalog
  newest-first, filter each partition to `listened_at >= start`, stop at the
  first partition where that filter is empty, otherwise further filter to
  `listened_at <= end` and append to the accumulator.
* `get_latest_listen_ts` — read only the newest partition and return the
  maximum `listened_at` it contains (`None` when the partition is empty).

Timestamps are modelled as integers, a listen record as its timestamp plus an
opaque payload, and the HDFS directory as an association list from file name
to the records stored in that file.  Failures (Python's `ValueError` from
`int(...)` inside the sort key, and the `IndexError` from indexing an empty
file list) are modelled with `Except`.
-/

/-- One listen record: the `listened_at` timestamp the scan filters on, plus
an opaque payload standing for all remaining columns. -/
structure Listen where
  listened_at : Int
  payload : Nat
deriving DecidableEq, Repr

/-- The dump directory in HDFS: file names with the listen records each file
holds.  A real directory listing has pairwise distinct names. -/
abbrev Store := List (String × List Listen)

/-- Failures surfaced by the catalog code: Python's `ValueError` raised by
`int(...)` on a malformed partition name, and the `IndexError` raised by
`get_listen_files_list()[0]` when no usable partition exists. -/
inductive CatalogError where
  | malformedPartitionName : String → CatalogError
  | catalogEmpty : CatalogError
deriving DecidableEq, Repr

instance {ε α : Type} [DecidableEq ε] [DecidableEq α] : DecidableEq (Except ε α) := by
  intro x y
  cases x <;> cases y
  case error.error a b =>
    exact if h : a = b then .isTrue (by rw [h]) else .isFalse (fun hh => by cases hh; exact h rfl)
  case error.ok a b => exact .isFalse (fun hh => by cases hh)
  case ok.error a b => exact .isFalse (fun hh => by cases hh)
  case ok.ok a b =>
    exact if h : a = b then .isTrue (by rw [h]) else .isFalse (fun hh => by cases hh; exact h rfl)

/-- `hdfs_connection.client.list(...)`: the names in the dump directory. -/
def listDirectory (store : Store) : List String := store.map Prod.fst

/-- `read_files_from_HDFS(os.path.join(dir, name))`: the records of the named
file.  The scan only reads names obtained from `listDirectory`, so the
lookup never misses there; a missing name yields no records. -/
def readPartition (store : Store) (name : String) : List Listen :=
  (store.lookup name).getD []

/-- `x.split(".")[0]`: the characters before the first dot. -/
def headToken (f : String) : List Char := f.data.takeWhile (fun c => c != '.')

/-- The code points CPython's `int(str)` strips as leading/trailing
whitespace, obtained by enumerating every code point against CPython 3.11
(those `ch` with `int("5" + ch) == 5`). -/
def pySpaceCodes : List Nat :=
  [9, 10, 11, 12, 13, 32, 133, 160, 5760, 8192, 8193, 8194, 8195, 8196,
   8197, 8198, 8199, 8200, 8201, 8202, 8232, 8233, 8239, 8287, 12288]

/-- Whether `int(str)` strips this character as surrounding whitespace. -/
def isPySpace (c : Char) : Bool := pySpaceCodes.contains c.toNat

/-- The zero code point of every run of ten consecutive Unicode decimal
digits accepted by CPython's `int` (Unicode 14.0, enumerated against
CPython 3.11; every accepted digit lies in exactly one such run).  ASCII
`0` = 48 is listed first. -/
def pyDigitZeroCodes : List Nat :=
  [48, 1632, 1776, 1984, 2406, 2534, 2662, 2790, 2918, 3046, 3174, 3302,
   3430, 3558, 3664, 3792, 3872, 4160, 4240, 6112, 6160, 6470, 6608, 6784,
   6800, 6992, 7088, 7232, 7248, 42528, 43216, 43264, 43472, 43504, 43600,
   44016, 65296, 66720, 68912, 69734, 69872, 69942, 70096, 70384, 70736,
   70864, 71248, 71360, 71472, 71904, 72016, 72784, 73040, 73120, 92768,
   92864, 93008, 120782, 120792, 120802, 120812, 120822, 123200, 123632,
   125264, 130032]

/-- The decimal value `int` assigns to a character: its offset inside its
run of Unicode decimal digits, `none` for a non-digit. -/
def pyDigitVal? (c : Char) : Option Nat :=
  match pyDigitZeroCodes.find? (fun b => decide (b ≤ c.toNat ∧ c.toNat ≤ b + 9)) with
  | some b => some (c.toNat - b)
  | none => none

/-- The digit characters after the first one: further decimal digits, with
a single underscore allowed only between two digits (PEP 515). -/
def digitsRest : Nat → List Char → Option Nat
  | acc, [] => some acc
  | acc, '_' :: rest =>
    match rest with
    | [] => none
    | c :: cs =>
      match pyDigitVal? c with
      | some d => digitsRest (10 * acc + d) cs
      | none => none
  | acc, c :: cs =>
    match pyDigitVal? c with
    | some d => digitsRest (10 * acc + d) cs
    | none => none

/-- A digit sequence as accepted by CPython's `int` after whitespace and
sign handling: nonempty, starting with a decimal digit, underscores
allowed singly between digits. -/
def digitsToNat? (cs : List Char) : Option Nat :=
  match cs with
  | [] => none
  | c :: rest =>
    match pyDigitVal? c with
    | some d => digitsRest d rest
    | none => none

/-- The leading/trailing whitespace stripping `int(str)` performs. -/
def pyStrip (cs : List Char) : List Char :=
  ((cs.dropWhile isPySpace).reverse.dropWhile isPySpace).reverse

/-- CPython's `int(token)` on a string: strip surrounding whitespace, an
optional single sign, then a nonempty digit sequence with single
underscores between digits; `none` exactly where `int` raises
`ValueError`. -/
def pyInt? (cs : List Char) : Option Int :=
  match pyStrip cs with
  | '-' :: rest => (digitsToNat? rest).map (fun n => -(n : Int))
  | '+' :: rest => (digitsToNat? rest).map (fun n => (n : Int))
  | stripped => (digitsToNat? stripped).map (fun n => (n : Int))

/-- The sort key of `get_listen_files_list`: `int(x.split(".")[0])`, `none`
when `int` would raise `ValueError`. -/
def ordinalKey (f : String) : Option Int := pyInt? (headToken f)

/-- `file.endswith(".parquet")`. -/
def hasParquetExt (f : String) : Bool := ".parquet".data.isSuffixOf f.data

/-- Membership test for the `file_names` list built by the loop in
`get_listen_files_list`: not the incremental file, and carrying the
`.parquet` suffix. -/
def isNumberedEntry (f : String) : Bool :=
  f != "incremental.parquet" && hasParquetExt f

/-- The comparison realising `sort(key=lambda x: int(x.split(".")[0]),
reverse=True)`: `a` may precede `b` when `a`'s ordinal is ≥ `b`'s.  The
`getD 0` default is only reached when a key failed to parse, in which case
`get_listen_files_list` has already errored out. -/
def ordinalGe (a b : String) : Prop :=
  (ordinalKey b).getD 0 ≤ (ordinalKey a).getD 0

instance : DecidableRel ordinalGe := fun a b =>
  inferInstanceAs (Decidable ((ordinalKey b).getD 0 ≤ (ordinalKey a).getD 0))

instance : IsTotal String ordinalGe := ⟨fun _ _ => le_total _ _⟩

instance : IsTrans String ordinalGe := ⟨fun _ _ _ hab hbc => le_trans hbc hab⟩

/-- `get_listen_files_list`: order the dump files newest-first.  Python
computes every sort key before sorting, so a single malformed `.parquet`
name raises `ValueError` (the first such name in listing order) even when
nothing needs reordering.  `list.sort` with `reverse=True` is a stable sort
under the descending-key preorder, and so is `List.insertionSort` with
`ordinalGe`; a stable sort's output is unique, so the two agree on every
input whose keys all parse. -/
def get_listen_files_list (files : List String) : Except CatalogError (List String) :=
  let has_incremental := files.contains "incremental.parquet"
  let file_names := files.filter isNumberedEntry
  match file_names.find? (fun f => (ordinalKey f).isNone) with
  | some f => .error (.malformedPartitionName f)
  | none =>
    let sorted := file_names.insertionSort ordinalGe
    .ok (if has_incremental then "incremental.parquet" :: sorted else sorted)

/-- The partition loop of `get_listens_from_new_dump`: for each file, filter
to `listened_at >= startTs`; break when that set is empty; otherwise filter
to `listened_at <= endTs` and append (`dfs.union(df)` keeps row order).
Returns the accumulated listens together with the trace of files read. -/
def scanFiles (store : Store) (startTs endTs : Int) : List String → List Listen × List String
  | [] => ([], [])
  | f :: rest =>
    let df := readPartition store f
    let dfStart := df.filter (fun l => decide (startTs ≤ l.listened_at))
    if dfStart.isEmpty then ([], [f])
    else
      let dfEnd := dfStart.filter (fun l => decide (l.listened_at ≤ endTs))
      let r := scanFiles store startTs endTs rest
      (dfEnd ++ r.1, f :: r.2)

/-- `get_listens_from_new_dump`, instrumented with the trace of partition
files it read. -/
def get_listens_traced (store : Store) (startTs endTs : Int) :
    Except CatalogError (List Listen × List String) :=
  (get_listen_files_list (listDirectory store)).map
    (fun files => scanFiles store startTs endTs files)

/-- `get_listens_from_new_dump(start, end)`: the listens with
`start <= listened_at <= end`, gathered newest partition first. -/
def get_listens_from_new_dump (store : Store) (startTs endTs : Int) :
    Except CatalogError (List Listen) :=
  (get_listens_traced store startTs endTs).map Prod.fst

/-- The aggregation `max('listened_at')` over one partition; `none` on an
empty partition, as Spark's `max` of zero rows is `null`. -/
def maxListenedAt (ls : List Listen) : Option Int :=
  (ls.map Listen.listened_at).max?

/-- `get_latest_listen_ts`: read only `get_listen_files_list()[0]` and return
its maximum `listened_at`.  Indexing an empty list raises (`IndexError`),
modelled as `catalogEmpty`. -/
def get_latest_listen_ts (store : Store) : Except CatalogError (Option Int) :=
  match get_listen_files_list (listDirectory store) with
  | .error e => .error e
  | .ok [] => .error .catalogEmpty
  | .ok (f :: _) => .ok (maxListenedAt (readPartition store f))

/-! ### Concrete stores used to instantiate the spec's example scenarios -/

/-- Three full-dump partitions with timestamp ranges `[0,10]`, `[11,20]` and
`[21,30]`. -/
def part0 : List Listen := [⟨0, 0⟩, ⟨5, 1⟩, ⟨10, 2⟩]

def part1 : List Listen := [⟨11, 3⟩, ⟨15, 4⟩, ⟨20, 5⟩]

def part2 : List Listen := [⟨21, 6⟩, ⟨25, 7⟩, ⟨30, 8⟩]

def store3 : Store := [("0.parquet", part0), ("1.parquet", part1), ("2.parquet", part2)]

/-- Two disjoint partitions covering `[0,10]` and `[20,30]`. -/
def partLow : List Listen := [⟨0, 10⟩, ⟨5, 11⟩, ⟨10, 12⟩]

def partHigh : List Listen := [⟨20, 13⟩, ⟨25, 14⟩, ⟨30, 15⟩]

def storeGap : Store := [("0.parquet", partLow), ("1.parquet", partHigh)]

/-- The optional incremental entry that `get_listen_files_list` inserts at
position 0 of its result. -/
def incrementalHead (files : List String) : List String :=
  if files.contains "incremental.parquet" then ["incremental.parquet"] else []

/-- The strict version of `ordinalGe`, used to show that the descending
order of a list of files with pairwise distinct ordinals is unique. -/
def ordinalGt (a b : String) : Prop :=
  (ordinalKey b).getD 0 < (ordinalKey a).getD 0

example : get_listen_files_list ["0.parquet", "1.parquet", "2.parquet", "incremental.parquet"] =
    .ok ["incremental.parquet", "2.parquet", "1.parquet", "0.parquet"] := by decide

example : get_listens_from_new_dump store3 25 30 = .ok [⟨25, 7⟩, ⟨30, 8⟩] := by decide

example : get_listens_traced store3 25 30 =
    .ok ([⟨25, 7⟩, ⟨30, 8⟩], ["2.parquet", "1.parquet"]) := by decide

example : get_listens_from_new_dump storeGap 5 25 =
    .ok [⟨20, 13⟩, ⟨25, 14⟩, ⟨5, 11⟩, ⟨10, 12⟩] := by decide

example : get_latest_listen_ts store3 = .ok (some 30) := by decide

example : get_listen_files_list ["bad.parquet", "0.parquet"] =
    .error (.malformedPartitionName "bad.parquet") := by decide

/-! ### Helper lemmas about the catalog -/

lemma contains_eq_true_of_mem {l : List String} {a : String} (h : a ∈ l) :
    l.contains a = true := by
  simpa [List.contains, List.elem_iff] using h

lemma listFiles_ok_eq {files : List String}
    (h : ∀ f ∈ files, isNumberedEntry f = true → (ordinalKey f).isSome) :
    get_listen_files_list files =
      .ok (incrementalHead files ++ (files.filter isNumberedEntry).insertionSort ordinalGe) := by
  have hfind : (files.filter isNumberedEntry).find? (fun f => (ordinalKey f).isNone) = none := by
    rw [List.find?_eq_none]
    intro x hx
    have hx' := List.mem_filter.mp hx
    have hs := h x hx'.1 hx'.2
    intro hn
    rw [Option.isNone_iff_eq_none] at hn
    rw [hn] at hs
    simp at hs
  simp only [get_listen_files_list, hfind, incrementalHead]
  split <;> simp

lemma listFiles_error_of_bad {files : List String} {f : String}
    (hf : f ∈ files) (hnum : isNumberedEntry f = true) (hbad : (ordinalKey f).isNone) :
    ∃ g, get_listen_files_list files = .error (.malformedPartitionName g) ∧
      g ∈ files ∧ isNumberedEntry g = true ∧ (ordinalKey g).isNone := by
  have hsome : ((files.filter isNumberedEntry).find? (fun f => (ordinalKey f).isNone)).isSome := by
    rw [List.find?_isSome]
    exact ⟨f, List.mem_filter.mpr ⟨hf, hnum⟩, hbad⟩
  rcases Option.isSome_iff_exists.mp hsome with ⟨g, hg⟩
  have hgp : (ordinalKey g).isNone = true := by simpa using List.find?_some hg
  have hgmem := List.mem_filter.mp (List.mem_of_find?_eq_some hg)
  refine ⟨g, ?_, hgmem.1, hgmem.2, hgp⟩
  simp only [get_listen_files_list, hg]

lemma eq_of_perm_of_pairwise_ordinalGe {M N : List String}
    (p : M.Perm N) (hM : M.Pairwise ordinalGe) (hN : N.Pairwise ordinalGe)
    (nd : M.Nodup)
    (inj : ∀ a ∈ M, ∀ b ∈ M, (ordinalKey a).getD 0 = (ordinalKey b).getD 0 → a = b) :
    M = N := by
  haveI : IsAntisymm String ordinalGt :=
    ⟨fun a b h1 h2 => absurd (lt_trans h1 h2) (lt_irrefl _)⟩
  have strict : ∀ {L : List String}, L.Pairwise ordinalGe → L.Nodup →
      (∀ a ∈ L, ∀ b ∈ L, (ordinalKey a).getD 0 = (ordinalKey b).getD 0 → a = b) →
      L.Pairwise ordinalGt := by
    intro L hL ndL injL
    refine (hL.and ndL).imp_of_mem ?_
    intro a b ha hb hab
    rcases hab with ⟨hge, hne⟩
    rcases lt_or_eq_of_le hge with h | h
    · exact h
    · exact absurd (injL b hb a ha h) (Ne.symm hne)
  have hM' := strict hM nd inj
  have hN' := strict hN (p.nodup nd)
    (fun a ha b hb => inj a (p.mem_iff.mpr ha) b (p.mem_iff.mpr hb))
  exact List.eq_of_perm_of_sorted p hM' hN'

/-! ### The claims about `get_listen_files_list` -/

/-- C1: for every directory listing made of the numbered partitions
`{0,1,2}` plus the incremental partition, `get_listen_files_list` returns
`[incremental, 2, 1, 0]`; in general any successful result is the
incremental entry (when present) followed by the numbered `.parquet`
entries sorted by embedded ordinal in descending order, so index 0 is the
newest partition. -/
theorem C1_catalog_order :
    (∀ files : List String,
        files.Perm ["0.parquet", "1.parquet", "2.parquet", "incremental.parquet"] →
        get_listen_files_list files =
          .ok ["incremental.parquet", "2.parquet", "1.parquet", "0.parquet"]) ∧
    (∀ files L, get_listen_files_list files = .ok L →
        ∃ M, M.Perm (files.filter isNumberedEntry) ∧ M.Pairwise ordinalGe ∧
          L = incrementalHead files ++ M) := by
  constructor
  · intro files hperm
    have hkeys : ∀ f ∈ files, isNumberedEntry f = true → (ordinalKey f).isSome := by
      intro f hf hnum
      have h4 := hperm.mem_iff.mp hf
      simp only [List.mem_cons, List.not_mem_nil, or_false] at h4
      revert hnum
      rcases h4 with rfl | rfl | rfl | rfl <;> decide
    have hok := listFiles_ok_eq hkeys
    have hfil : (files.filter isNumberedEntry).Perm ["0.parquet", "1.parquet", "2.parquet"] := by
      have h1 := hperm.filter isNumberedEntry
      have h2 : (["0.parquet", "1.parquet", "2.parquet", "incremental.parquet"].filter
          isNumberedEntry) = ["0.parquet", "1.parquet", "2.parquet"] := by decide
      rwa [h2] at h1
    have hM1 : ((files.filter isNumberedEntry).insertionSort ordinalGe).Perm
        (files.filter isNumberedEntry) := List.perm_insertionSort _ _
    have hM2 : ((files.filter isNumberedEntry).insertionSort ordinalGe).Perm
        ["0.parquet", "1.parquet", "2.parquet"] := hM1.trans hfil
    have hMN : ((files.filter isNumberedEntry).insertionSort ordinalGe).Perm
        ["2.parquet", "1.parquet", "0.parquet"] := by
      refine hM2.trans ?_
      exact (List.reverse_perm ["0.parquet", "1.parquet", "2.parquet"]).symm
    have hMsorted : ((files.filter isNumberedEntry).insertionSort ordinalGe).Pairwise
        ordinalGe := List.sorted_insertionSort ordinalGe _
    have hNsorted : (["2.parquet", "1.parquet", "0.parquet"] : List String).Pairwise
        ordinalGe := by decide
    have hnd : ((files.filter isNumberedEntry).insertionSort ordinalGe).Nodup := by
      refine hM2.symm.nodup ?_
      decide
    have hinj : ∀ a ∈ (files.filter isNumberedEntry).insertionSort ordinalGe,
        ∀ b ∈ (files.filter isNumberedEntry).insertionSort ordinalGe,
        (ordinalKey a).getD 0 = (ordinalKey b).getD 0 → a = b := by
      intro a ha b hb hk
      have ha' := hM2.mem_iff.mp ha
      have hb' := hM2.mem_iff.mp hb
      simp only [List.mem_cons, List.not_mem_nil, or_false] at ha' hb'
      rcases ha' with rfl | rfl | rfl <;> rcases hb' with rfl | rfl | rfl <;>
        first | rfl | (exfalso; revert hk; decide)
    have hMeq := eq_of_perm_of_pairwise_ordinalGe hMN hMsorted hNsorted hnd hinj
    rw [hok, hMeq]
    have hm : "incremental.parquet" ∈ files := hperm.mem_iff.mpr (by simp)
    simp [incrementalHead, hm, contains_eq_true_of_mem hm]
  · intro files L hok
    simp only [get_listen_files_list] at hok
    split at hok
    · cases hok
    · cases hok
      refine ⟨(files.filter isNumberedEntry).insertionSort ordinalGe,
        List.perm_insertionSort _ _, List.sorted_insertionSort ordinalGe _, ?_⟩
      simp only [incrementalHead]
      split <;> simp

/-- Witness for C1 at a concrete shuffled directory listing. -/
theorem C1_catalog_order_witness :
    get_listen_files_list ["1.parquet", "incremental.parquet", "0.parquet", "2.parquet"] =
      .ok ["incremental.parquet", "2.parquet", "1.parquet", "0.parquet"] :=
  C1_catalog_order.1 _ (by decide)

/-! ### Helper lemmas about the scan loop -/

lemma scanFiles_cons_empty {store : Store} {a b : Int} {f : String} {rest : List String}
    (h : (readPartition store f).filter (fun l => decide (a ≤ l.listened_at)) = []) :
    scanFiles store a b (f :: rest) = ([], [f]) := by
  simp [scanFiles, h]

lemma scanFiles_cons_nonempty {store : Store} {a b : Int} {f : String} {rest : List String}
    (h : (readPartition store f).filter (fun l => decide (a ≤ l.listened_at)) ≠ []) :
    scanFiles store a b (f :: rest) =
      ((((readPartition store f).filter (fun l => decide (a ≤ l.listened_at))).filter
          (fun l => decide (l.listened_at ≤ b))) ++ (scanFiles store a b rest).1,
        f :: (scanFiles store a b rest).2) := by
  simp [scanFiles, List.isEmpty_iff, h]

lemma scanFiles_trace (store : Store) (a b : Int) : ∀ fs : List String,
    (scanFiles store a b fs).2 =
      match fs.findIdx? (fun f =>
          ((readPartition store f).filter (fun l => decide (a ≤ l.listened_at))).isEmpty) with
      | some i => fs.take (i + 1)
      | none => fs
  | [] => rfl
  | f :: rest => by
    by_cases h : (readPartition store f).filter (fun l => decide (a ≤ l.listened_at)) = []
    · have hp : ((readPartition store f).filter
          (fun l => decide (a ≤ l.listened_at))).isEmpty = true := by
        simp [List.isEmpty_iff, h]
      rw [scanFiles_cons_empty h]
      simp [List.findIdx?_cons, hp]
    · have hp : ((readPartition store f).filter
          (fun l => decide (a ≤ l.listened_at))).isEmpty = false := by
        simp [List.isEmpty_iff, h]
      have ih := scanFiles_trace store a b rest
      rw [scanFiles_cons_nonempty h]
      simp only [List.findIdx?_cons, hp, Bool.false_eq_true, if_false, List.findIdx?_succ]
      cases hfind : rest.findIdx? (fun f =>
          ((readPartition store f).filter (fun l => decide (a ≤ l.listened_at))).isEmpty) with
      | none => simp [ih, hfind]
      | some i => simp [ih, hfind, List.take_succ_cons]

lemma readPartition_mem {name : String} {l : Listen} :
    ∀ {store : Store}, l ∈ readPartition store name → ∃ p ∈ store, p.1 = name ∧ l ∈ p.2
  | [], h => by simp [readPartition, List.lookup] at h
  | (k, v) :: tl, h => by
    cases hbeq : name == k
    · have h' : l ∈ readPartition tl name := by
        simpa [readPartition, List.lookup, hbeq] using h
      rcases readPartition_mem h' with ⟨p, hp, hn, hl⟩
      exact ⟨p, List.mem_cons_of_mem _ hp, hn, hl⟩
    · have hv : l ∈ v := by simpa [readPartition, List.lookup, hbeq] using h
      exact ⟨(k, v), List.mem_cons_self _ _, (eq_of_beq hbeq).symm, hv⟩

lemma mem_scanFiles {store : Store} {a b : Int} :
    ∀ {fs : List String} {l : Listen}, l ∈ (scanFiles store a b fs).1 →
      (a ≤ l.listened_at ∧ l.listened_at ≤ b) ∧ ∃ f ∈ fs, l ∈ readPartition store f
  | [], l, h => by simp [scanFiles] at h
  | f :: rest, l, h => by
    by_cases he : (readPartition store f).filter (fun l => decide (a ≤ l.listened_at)) = []
    · rw [scanFiles_cons_empty he] at h
      simp at h
    · rw [scanFiles_cons_nonempty he] at h
      rcases List.mem_append.mp h with hl | hr
      · have h1 := List.mem_filter.mp hl
        have h2 := List.mem_filter.mp h1.1
        refine ⟨⟨of_decide_eq_true h2.2, of_decide_eq_true h1.2⟩, f, List.mem_cons_self _ _, h2.1⟩
      · rcases mem_scanFiles hr with ⟨hw, g, hg, hlg⟩
        exact ⟨hw, g, List.mem_cons_of_mem _ hg, hlg⟩

lemma scanFiles_fst_eq_nil_of_inverted {store : Store} {a b : Int} (hab : b < a) :
    ∀ fs : List String, (scanFiles store a b fs).1 = []
  | [] => rfl
  | f :: rest => by
    by_cases he : (readPartition store f).filter (fun l => decide (a ≤ l.listened_at)) = []
    · rw [scanFiles_cons_empty he]
    · rw [scanFiles_cons_nonempty he]
      have h2 : (((readPartition store f).filter (fun l => decide (a ≤ l.listened_at))).filter
          (fun l => decide (l.listened_at ≤ b))) = [] := by
        rw [List.filter_eq_nil_iff]
        intro x hx
        have hxa := of_decide_eq_true (List.mem_filter.mp hx).2
        simp only [decide_eq_true_eq]
        omega
      simp [h2, scanFiles_fst_eq_nil_of_inverted hab rest]

/-! ### The claims about the range scan -/

/-- C2: the scan reads partitions in catalog order, newest to oldest, and
stops scanning entirely at the first partition whose records filtered to
`listened_at >= start` are empty: the loop's read trace — and hence the
trace of every successful `get_listens_from_new_dump` run over its own
catalog — is the catalog prefix up to and including that partition, so no
older partition is ever read.  Over three partitions covering `[0,10]`,
`[11,20]`, `[21,30]` with window `[25,30]`, the result equals filtering
partition 2 alone and `0.parquet` is never read. -/
theorem C2_early_termination :
    (∀ (store : Store) (a b : Int) (fs : List String),
        (scanFiles store a b fs).2 =
          match fs.findIdx? (fun f =>
              ((readPartition store f).filter (fun l => decide (a ≤ l.listened_at))).isEmpty) with
          | some i => fs.take (i + 1)
          | none => fs) ∧
    (∀ (store : Store) (a b : Int) (files : List String) (res : List Listen)
        (trace : List String),
        get_listen_files_list (listDirectory store) = .ok files →
        get_listens_traced store a b = .ok (res, trace) →
        trace =
          match files.findIdx? (fun f =>
              ((readPartition store f).filter (fun l => decide (a ≤ l.listened_at))).isEmpty) with
          | some i => files.take (i + 1)
          | none => files) ∧
    get_listens_traced store3 25 30 =
      .ok (part2.filter (fun l => decide (25 ≤ l.listened_at) && decide (l.listened_at ≤ 30)),
        ["2.parquet", "1.parquet"]) ∧
    (∀ (res : List Listen) (trace : List String),
        get_listens_traced store3 25 30 = .ok (res, trace) → "0.parquet" ∉ trace) := by
  refine ⟨fun store a b fs => scanFiles_trace store a b fs, ?_, by decide, ?_⟩
  · intro store a b files res trace hfiles htr
    unfold get_listens_traced at htr
    rw [hfiles] at htr
    simp only [Except.map, Except.ok.injEq] at htr
    have h2 : (scanFiles store a b files).2 = trace := congrArg Prod.snd htr
    rw [← h2]
    exact scanFiles_trace store a b files
  · intro res trace htr
    have hconc : get_listens_traced store3 25 30 =
        .ok (part2.filter (fun l => decide (25 ≤ l.listened_at) && decide (l.listened_at ≤ 30)),
          ["2.parquet", "1.parquet"]) := by decide
    rw [hconc] at htr
    simp only [Except.ok.injEq, Prod.mk.injEq] at htr
    rw [← htr.2]
    decide

/-- Witness for C2: the traced scan of `store3` with window `[25, 30]` never
reads `0.parquet`. -/
theorem C2_early_termination_witness :
    "0.parquet" ∉ (["2.parquet", "1.parquet"] : List String) :=
  C2_early_termination.2.2.2
    (part2.filter (fun l => decide (25 ≤ l.listened_at) && decide (l.listened_at ≤ 30)))
    ["2.parquet", "1.parquet"] (by decide)

/-- C3: the lower-bound filter is applied and checked for emptiness before
the upper-bound filter, so a partition whose surviving records are all newer
than the window's end still does not stop the scan; over disjoint partitions
covering `[0,10]` and `[20,30]`, the scan with window `[5,25]` returns the
union of the records in `[20,25]` and `[5,10]`. -/
theorem C3_filter_order :
    (∀ (store : Store) (a b : Int) (f : String) (rest : List String),
        (readPartition store f).filter (fun l => decide (a ≤ l.listened_at)) ≠ [] →
        (scanFiles store a b (f :: rest)).1 =
          ((readPartition store f).filter (fun l => decide (a ≤ l.listened_at))).filter
              (fun l => decide (l.listened_at ≤ b)) ++ (scanFiles store a b rest).1) ∧
    get_listens_from_new_dump storeGap 5 25 =
      .ok (partHigh.filter (fun l => decide (5 ≤ l.listened_at) && decide (l.listened_at ≤ 25)) ++
        partLow.filter (fun l => decide (5 ≤ l.listened_at) && decide (l.listened_at ≤ 25))) :=
  ⟨fun store a b f rest h => by rw [scanFiles_cons_nonempty h], by decide⟩

/-- Witness for C3: the newest partition of `storeGap` keeps records after
the lower-bound filter, so the scan continues into the older partition. -/
theorem C3_filter_order_witness :
    (scanFiles storeGap 5 25 ["1.parquet", "0.parquet"]).1 =
      ((readPartition storeGap "1.parquet").filter
          (fun l => decide ((5 : Int) ≤ l.listened_at))).filter
          (fun l => decide (l.listened_at ≤ (25 : Int))) ++
        (scanFiles storeGap 5 25 ["0.parquet"]).1 :=
  C3_filter_order.1 storeGap 5 25 "1.parquet" ["0.parquet"] (by decide)

/-- C4: every record returned by a successful scan lies inside the inclusive
window and comes from a partition of the catalog; when the partitions are
pairwise disjoint (as chronological dump partitions are), that partition is
unique. -/
theorem C4_window_roundtrip :
    ∀ (store : Store) (a b : Int) (res : List Listen),
      get_listens_from_new_dump store a b = .ok res →
      ∀ l ∈ res,
        (a ≤ l.listened_at ∧ l.listened_at ≤ b) ∧
        (∃ p ∈ store, l ∈ p.2) ∧
        (store.Pairwise (fun p q => ∀ x ∈ p.2, x ∉ q.2) →
          ∃! p, p ∈ store ∧ l ∈ p.2) := by
  intro store a b res hok l hl
  have hres : ∃ fs, res = (scanFiles store a b fs).1 := by
    unfold get_listens_from_new_dump get_listens_traced at hok
    cases hcat : get_listen_files_list (listDirectory store) with
    | error e => rw [hcat] at hok; simp [Except.map] at hok
    | ok fs =>
      rw [hcat] at hok
      simp [Except.map] at hok
      exact ⟨fs, hok.symm⟩
  rcases hres with ⟨fs, rfl⟩
  rcases mem_scanFiles hl with ⟨hw, f, _, hread⟩
  rcases readPartition_mem hread with ⟨p, hp, _, hlp⟩
  refine ⟨hw, ⟨p, hp, hlp⟩, ?_⟩
  intro hdis
  have hsymm : Symmetric (fun p q : String × List Listen => ∀ x ∈ p.2, x ∉ q.2) := by
    intro p q hpq x hxq hxp
    exact hpq x hxp hxq
  refine ⟨p, ⟨hp, hlp⟩, ?_⟩
  rintro q ⟨hq, hlq⟩
  by_contra hne
  exact hdis.forall hsymm hq hp hne l hlq hlp

/-- Witness for C4 at `store3` with window `[25, 30]` and the record with
timestamp 25. -/
theorem C4_window_roundtrip_witness :
    ∃! p, p ∈ store3 ∧ (⟨25, 7⟩ : Listen) ∈ p.2 :=
  (C4_window_roundtrip store3 25 30 [⟨25, 7⟩, ⟨30, 8⟩] (by decide) ⟨25, 7⟩ (by decide)).2.2
    (by decide)

/-- C5: on a catalog whose listing parses, a scan whose window has
`start > end` returns an empty result and no error. -/
theorem C5_inverted_window :
    ∀ (store : Store) (a b : Int) (files : List String),
      get_listen_files_list (listDirectory store) = .ok files → b < a →
      get_listens_from_new_dump store a b = .ok [] := by
  intro store a b files hfiles hab
  unfold get_listens_from_new_dump get_listens_traced
  rw [hfiles]
  simp [Except.map, scanFiles_fst_eq_nil_of_inverted hab]

/-- Witness for C5: a scan of the non-empty `store3` with window `[30, 25]`. -/
theorem C5_inverted_window_witness :
    get_listens_from_new_dump store3 30 25 = .ok [] :=
  C5_inverted_window store3 30 25 ["2.parquet", "1.parquet", "0.parquet"] (by decide) (by decide)

/-! ### The claims about `get_latest_listen_ts` -/

/-- C6: when the catalog is non-empty, `get_latest_listen_ts` is determined
by the newest partition alone (it never reads another one), and when that
partition has maximum timestamp `T` the result is exactly `T`. -/
theorem C6_latest_from_newest :
    (∀ (store : Store) (f : String) (rest : List String),
        get_listen_files_list (listDirectory store) = .ok (f :: rest) →
        get_latest_listen_ts store = .ok (maxListenedAt (readPartition store f))) ∧
    (∀ (store : Store) (f : String) (rest : List String) (T : Int),
        get_listen_files_list (listDirectory store) = .ok (f :: rest) →
        maxListenedAt (readPartition store f) = some T →
        get_latest_listen_ts store = .ok (some T)) := by
  constructor
  · intro store f rest h
    unfold get_latest_listen_ts
    rw [h]
  · intro store f rest T h hmax
    unfold get_latest_listen_ts
    rw [h]
    show Except.ok (maxListenedAt (readPartition store f)) = Except.ok (some T)
    rw [hmax]

/-- Witness for C6 at `store3`, whose newest partition has maximum 30. -/
theorem C6_latest_from_newest_witness :
    get_latest_listen_ts store3 = .ok (some 30) :=
  C6_latest_from_newest.2 store3 "2.parquet" ["1.parquet", "0.parquet"] 30 (by decide) (by decide)

/-- C7: a directory listing with zero usable partitions (no incremental
entry, no `.parquet` entry) makes `get_latest_listen_ts` fail with the
catalog-empty error. -/
theorem C7_catalog_empty :
    ∀ store : Store,
      (∀ f ∈ listDirectory store, f ≠ "incremental.parquet" ∧ hasParquetExt f = false) →
      get_latest_listen_ts store = .error .catalogEmpty := by
  intro store h
  have hnil : (listDirectory store).filter isNumberedEntry = [] := by
    rw [List.filter_eq_nil_iff]
    intro f hf
    simp [isNumberedEntry, (h f hf).2]
  have hninc : "incremental.parquet" ∉ listDirectory store := fun hm => (h _ hm).1 rfl
  have hcb : (listDirectory store).contains "incremental.parquet" = false := by
    cases hc : (listDirectory store).contains "incremental.parquet"
    · rfl
    · exact absurd (by simpa [List.contains, List.elem_iff] using hc) hninc
  have hok : get_listen_files_list (listDirectory store) = .ok [] := by
    simp [get_listen_files_list, hnil, hcb, hninc]
  unfold get_latest_listen_ts
  rw [hok]

/-- Witness for C7 at a store holding a single non-partition file. -/
theorem C7_catalog_empty_witness :
    get_latest_listen_ts [("notes.txt", [])] = .error CatalogError.catalogEmpty :=
  C7_catalog_empty [("notes.txt", [])] (by decide)

/-- C10: when the newest partition exists but holds zero records, the
empty-maximum aggregation makes `get_latest_listen_ts` return a `none`
result, not an error and not a fallback to an older partition. -/
theorem C10_empty_newest_partition :
    ∀ (store : Store) (f : String) (rest : List String),
      get_listen_files_list (listDirectory store) = .ok (f :: rest) →
      readPartition store f = [] →
      get_latest_listen_ts store = .ok none := by
  intro store f rest h hempty
  unfold get_latest_listen_ts
  rw [h]
  show Except.ok (maxListenedAt (readPartition store f)) = Except.ok none
  rw [hempty]
  rfl

/-- Witness for C10: the newest partition `1.parquet` is empty while the
older partition is not. -/
theorem C10_empty_newest_partition_witness :
    get_latest_listen_ts [("0.parquet", [⟨3, 0⟩]), ("1.parquet", [])] = .ok none :=
  C10_empty_newest_partition [("0.parquet", [⟨3, 0⟩]), ("1.parquet", [])]
    "1.parquet" ["0.parquet"] (by decide) (by decide)

/-! ### The claims about malformed and foreign directory entries -/

/-- Counterexample to C8 as stated: `incremental.parquet` itself is an entry
with the expected extension whose leading token before the extension
separator (`incremental`) is not an integer, yet `get_listen_files_list`
succeeds on a listing containing it — the incremental entry is set aside
before ordinals are parsed. -/
theorem C8_malformed_counterexample :
    hasParquetExt "incremental.parquet" = true ∧
    ordinalKey "incremental.parquet" = none ∧
    get_listen_files_list ["incremental.parquet"] = .ok ["incremental.parquet"] :=
  ⟨by decide, by decide, by decide⟩

/-- C8 amended: for every directory listing containing a non-incremental
entry with the expected extension whose leading token is not an integer —
that is, `int()` rejects it (`ordinalKey` is `none`) — `get_listen_files_list`
fails with the malformed-partition-name error (for some such entry of the
listing), and the failure propagates uncaught through both the range scan
and the latest-timestamp query. -/
theorem C8_malformed_fatal :
    (∀ (files : List String) (f : String), f ∈ files → f ≠ "incremental.parquet" →
        hasParquetExt f = true → ordinalKey f = none →
        ∃ g, get_listen_files_list files = .error (.malformedPartitionName g) ∧
          g ∈ files ∧ g ≠ "incremental.parquet" ∧ hasParquetExt g = true ∧
          ordinalKey g = none) ∧
    (∀ (store : Store) (a b : Int) (f : String), f ∈ listDirectory store →
        f ≠ "incremental.parquet" → hasParquetExt f = true → ordinalKey f = none →
        ∃ g, get_listens_from_new_dump store a b = .error (.malformedPartitionName g) ∧
          get_latest_listen_ts store = .error (.malformedPartitionName g)) := by
  have main : ∀ (files : List String) (f : String), f ∈ files → f ≠ "incremental.parquet" →
      hasParquetExt f = true → ordinalKey f = none →
      ∃ g, get_listen_files_list files = .error (.malformedPartitionName g) ∧
        g ∈ files ∧ g ≠ "incremental.parquet" ∧ hasParquetExt g = true ∧
        ordinalKey g = none := by
    intro files f hf hne hext hkey
    have hnum : isNumberedEntry f = true := by
      simp [isNumberedEntry, hext, bne_iff_ne, hne]
    rcases listFiles_error_of_bad hf hnum (by simp [hkey]) with ⟨g, herr, hgmem, hgnum, hgkey⟩
    have hg' : g ≠ "incremental.parquet" ∧ hasParquetExt g = true := by
      have := hgnum
      simp only [isNumberedEntry, Bool.and_eq_true, bne_iff_ne] at this
      exact this
    exact ⟨g, herr, hgmem, hg'.1, hg'.2, by simpa [Option.isNone_iff_eq_none] using hgkey⟩
  refine ⟨main, ?_⟩
  intro store a b f hf hne hext hkey
  rcases main (listDirectory store) f hf hne hext hkey with ⟨g, herr, _⟩
  refine ⟨g, ?_, ?_⟩
  · simp [get_listens_from_new_dump, get_listens_traced, herr, Except.map]
  · unfold get_latest_listen_ts
    rw [herr]

/-- Witness for the amended C8 at the listing `["bad.parquet"]`. -/
theorem C8_malformed_fatal_witness :
    ∃ g, get_listen_files_list ["bad.parquet"] = .error (.malformedPartitionName g) ∧
      g ∈ ["bad.parquet"] ∧ g ≠ "incremental.parquet" ∧ hasParquetExt g = true ∧
      ordinalKey g = none :=
  C8_malformed_fatal.1 ["bad.parquet"] "bad.parquet" (by decide) (by decide) (by decide)
    (by decide)

/-- C9: a directory entry that is neither the incremental file nor carries
the `.parquet` suffix is ignored: dropping it does not change the catalog,
and it never appears in a successful result. -/
theorem C9_ignores_foreign_files :
    ∀ (files : List String) (f : String), f ∈ files → f ≠ "incremental.parquet" →
      hasParquetExt f = false →
      get_listen_files_list files = get_listen_files_list (files.filter (fun g => g != f)) ∧
      ∀ L, get_listen_files_list files = .ok L → f ∉ L := by
  intro files f hf hne hext
  constructor
  · have hcont : (files.filter (fun g => g != f)).contains "incremental.parquet" =
        files.contains "incremental.parquet" := by
      by_cases hm : "incremental.parquet" ∈ files
      · rw [contains_eq_true_of_mem hm,
          contains_eq_true_of_mem (List.mem_filter.mpr ⟨hm, by simp [bne_iff_ne, Ne.symm hne]⟩)]
      · have h1 : "incremental.parquet" ∉ files.filter (fun g => g != f) :=
          fun hc => hm (List.mem_filter.mp hc).1
        cases hc1 : (files.filter (fun g => g != f)).contains "incremental.parquet" with
        | false =>
          cases hc2 : files.contains "incremental.parquet" with
          | false => rfl
          | true => exact absurd (by simpa [List.contains, List.elem_iff] using hc2) hm
        | true => exact absurd (by simpa [List.contains, List.elem_iff] using hc1) h1
    have hfil : (files.filter (fun g => g != f)).filter isNumberedEntry =
        files.filter isNumberedEntry := by
      rw [List.filter_filter]
      apply List.filter_congr
      intro x hx
      by_cases hxf : x = f
      · subst hxf
        simp [isNumberedEntry, hext]
      · simp [bne_iff_ne, hxf]
    simp only [get_listen_files_list, hfil, hcont]
  · intro L hok
    simp only [get_listen_files_list] at hok
    split at hok
    · cases hok
    · cases hok
      have hns : f ∉ (files.filter isNumberedEntry).insertionSort ordinalGe := by
        intro hmem
        have hmf := List.mem_filter.mp ((List.perm_insertionSort ordinalGe _).mem_iff.mp hmem)
        simp [isNumberedEntry, hext] at hmf
      split
      · intro hmem
        rcases List.mem_cons.mp hmem with h1 | h1
        · exact hne h1
        · exact hns h1
      · exact hns

/-- Witness for C9: a text file in the listing is dropped from both the
listing comparison and the successful result. -/
theorem C9_ignores_foreign_files_witness :
    get_listen_files_list ["notes.txt", "0.parquet"] =
      get_listen_files_list (["notes.txt", "0.parquet"].filter (fun g => g != "notes.txt")) ∧
    "notes.txt" ∉ (["0.parquet"] : List String) :=
  ⟨(C9_ignores_foreign_files ["notes.txt", "0.parquet"] "notes.txt" (by decide) (by decide)
      (by decide)).1,
    (C9_ignores_foreign_files ["notes.txt", "0.parquet"] "notes.txt" (by decide) (by decide)
      (by decide)).2 ["0.parquet"] (by decide)⟩
